import Mathlib

/-!
Verification of the personal-vault core: a shallow embedding of the Go
sources (internal/vault, internal/store, internal/crypto, internal/api)
with proofs of the specified properties.

Strings from the Go side are modelled as lists of characters so that the
byte-level operations (splitting, trimming, prefix tests) can be reasoned
about structurally.  External cryptographic primitives (Argon2id, HKDF,
AES-256-GCM, SHA-256) are not part of this repository; they are modelled
symbolically as injective constructions, reflecting the ideal-functionality
properties the spec assigns to them (deterministic key derivation,
AEAD round-trip, authentication failure under a wrong key, collision-free
hashing).  Randomness (nonces, fresh tokens) and wall-clock time are
passed in as explicit parameters.
-/

namespace PV

/-- Character strings of the Go code, as lists of characters. -/
abbrev Str := List Char

/-- Characters admitted by the identifier regular expression
`[a-zA-Z0-9_-]` of internal/vault/schema.go (validIDPart). -/
def validChar (c : Char) : Bool :=
  c.isAlpha || c.isDigit || c = '_' || c = '-'

/-- Embedding of Go strings.Split(s, ",") accumulating the current
segment; an empty input yields the single empty segment, as in Go. -/
def splitComma : Str → Str → List Str
  | [], acc => [acc.reverse]
  | c :: cs, acc =>
    if c = ',' then acc.reverse :: splitComma cs []
    else splitComma cs (c :: acc)

/-- Embedding of Go strings.TrimSpace: drop whitespace on both ends. -/
def trimStr (l : Str) : Str :=
  ((l.dropWhile Char.isWhitespace).reverse.dropWhile Char.isWhitespace).reverse

/-- Embedding of Go strings.HasPrefix(s, pat): does s start with pat. -/
def startsWithStr : Str → Str → Bool
  | _, [] => true
  | [], _ :: _ => false
  | c :: cs, p :: ps => p = c && startsWithStr cs ps

/-- Embedding of Go strings.HasSuffix(s, pat). -/
def endsWithStr (s pat : Str) : Bool :=
  startsWithStr s.reverse pat.reverse

/-- Embedding of Go strings.TrimSuffix(p, ".*") under the knowledge that
the suffix is present: keep everything but the final two characters. -/
def dropStarSuffix (p : Str) : Str :=
  p.take (p.length - 2)

/-- Embedding of Go strings.SplitN(id, ".", 2): the text before the first
dot and the text after it, or none when the string has no dot. -/
def splitFirstDot : Str → Option (Str × Str)
  | [] => none
  | c :: cs =>
    if c = '.' then some ([], cs)
    else match splitFirstDot cs with
      | some (a, b) => some (c :: a, b)
      | none => none

/-- Category part of a field identifier (text before the first dot). -/
def idCat (id : Str) : Str :=
  ((splitFirstDot id).map Prod.fst).getD []

/-- Name part of a field identifier (text after the first dot). -/
def idNamePart (id : Str) : Str :=
  ((splitFirstDot id).map Prod.snd).getD []

/-- Embedding of vault.ValidateFieldID (internal/vault/schema.go): the
identifier splits on the first dot into two non-empty parts drawn from
`[a-zA-Z0-9_-]`. -/
def validFieldID (id : Str) : Bool :=
  match splitFirstDot id with
  | some (c, n) =>
    decide (c ≠ []) && decide (n ≠ []) && c.all validChar && n.all validChar
  | none => false

/-- Embedding of vault.ValidCategoryName (internal/vault/schema.go). -/
def validCategoryName (name : Str) : Bool :=
  decide (name ≠ []) && name.all validChar

/-- Body of the loop of vault.ScopeAllows for one already-trimmed
pattern (internal/vault/schema.go): star matches everything, a pattern
ending in ".*" matches identifiers having "category." as a text prefix,
and any other pattern matches only by equality. -/
def patternAllows (p fieldID : Str) : Bool :=
  if p = ("*".toList) then true
  else if endsWithStr p (".*".toList) then
    startsWithStr fieldID (dropStarSuffix p ++ ['.'])
  else p = fieldID

/-- Embedding of vault.ScopeAllows: any comma-separated, trimmed pattern
that matches wins. -/
def scopeAllows (scope fieldID : Str) : Bool :=
  (splitComma scope []).any (fun p0 => patternAllows (trimStr p0) fieldID)

/-- Body of the loop of vault.ScopeAllowsCategory for one trimmed
pattern. -/
def patternAllowsCategory (p category : Str) : Bool :=
  if p = ("*".toList) then true
  else if endsWithStr p (".*".toList) then dropStarSuffix p = category
  else startsWithStr p (category ++ ['.'])

/-- Embedding of vault.ScopeAllowsCategory. -/
def scopeAllowsCategory (scope category : Str) : Bool :=
  (splitComma scope []).any (fun p0 => patternAllowsCategory (trimStr p0) category)

/-- Pattern semantics written from the specification text, for
comparison with the implementation: star matches every identifier, a
pattern of the form category followed by ".*" matches exactly the
identifiers whose prefix before the first dot equals that category, and
any other pattern matches only the identical identifier. -/
def specPatternMatches (p id : Str) : Bool :=
  if p = ("*".toList) then true
  else if endsWithStr p (".*".toList) then idCat id = dropStarSuffix p
  else p = id

/-- Value of one hexadecimal digit, as in Go encoding/hex. -/
def hexDigitVal (c : Char) : Option Nat :=
  if '0' ≤ c ∧ c ≤ '9' then some (c.toNat - '0'.toNat)
  else if 'a' ≤ c ∧ c ≤ 'f' then some (c.toNat - 'a'.toNat + 10)
  else if 'A' ≤ c ∧ c ≤ 'F' then some (c.toNat - 'A'.toNat + 10)
  else none

/-- Embedding of Go hex.DecodeString: pairs of hex digits to bytes;
fails on an odd length or a non-hex character. -/
def hexDecode : Str → Option (List Nat)
  | [] => some []
  | [_] => none
  | a :: b :: rest =>
    match hexDigitVal a, hexDigitVal b, hexDecode rest with
    | some x, some y, some r => some ((16 * x + y) :: r)
    | _, _, _ => none

/-! Symbolic model of the cryptographic primitives (internal/crypto).
These functions live outside the repository (golang.org/x/crypto and the
standard library); they are embedded as ideal functionalities: key
derivation is a deterministic injective construction, the AEAD is an
authenticated envelope that opens exactly under its own key, and SHA-256
is collision-free.  The random GCM nonce only influences the wire bytes
of the envelope, which no claim inspects, so it is not modelled. -/

/-- Symbolic key values: crypto.DeriveVaultKey (Argon2id over
password ‖ secret key with the stored salt) and crypto.DeriveSubkey
(HKDF-SHA256 with the vault salt and the category as info). -/
inductive MKey
  | master (password : Str) (sk : List Nat) (salt : List Nat)
  | subkey (k : MKey) (salt : List Nat) (info : Str)
deriving DecidableEq

/-- Symbolic AEAD envelope produced by crypto.EncryptToBase64: it
remembers the key it was sealed under and the sealed plaintext. -/
structure Ciphertext where
  key : MKey
  plaintext : Str
deriving DecidableEq

/-- Embedding of crypto.EncryptToBase64. -/
def encryptB64 (k : MKey) (m : Str) : Ciphertext := ⟨k, m⟩

/-- Embedding of crypto.DecryptFromBase64: authenticated decryption
succeeds exactly under the sealing key and returns the plaintext. -/
def decryptB64 (k : MKey) (c : Ciphertext) : Option Str :=
  if c.key = k then some c.plaintext else none

/-- Symbolic SHA-256 digests (collision-free by construction). -/
inductive Hash
  | sha256 (b : List Nat)
deriving DecidableEq

/-- Embedding of crypto.HashSecretKey. -/
def hashSecretKey (sk : List Nat) : Hash := .sha256 sk

/-- Embedding of vault.hashServiceToken (hex-encoded SHA-256 of the raw
token string), modelled as an injective, fixed-point-free tagging: the
output is strictly longer than the input, so no string equals its own
hash, matching the ideal behaviour of a hex-encoded digest. -/
def hashServiceToken (t : Str) : Str := ("sha256:".toList) ++ t

/-! Store layer (internal/store): the four SQLite tables as lists.
Timestamps are modelled as natural numbers; the textual RFC-3339
round-trip of the store is order-preserving and is elided.  The base-64
and hex codecs used for the vault_meta column are injective; metadata
values are therefore tagged by shape instead of being re-encoded. -/

/-- Values of the vault_meta table.  The TEXT column holds either a
plain string, a base-64 byte string (salt), a hex digest
(secret_key_hash), or a base-64 AEAD envelope (verification); the codecs
are injective so the model keeps the decoded shape. -/
inductive MetaVal
  | str (s : Str)
  | bytes (b : List Nat)
  | hash (h : Hash)
  | cipher (c : Ciphertext)
deriving DecidableEq

/-- Row of vault_fields (store.Field). -/
structure Field where
  id : Str
  category : Str
  fieldName : Str
  value : Ciphertext
  sensitivity : Str
  updatedAt : Nat
  version : Nat
deriving DecidableEq

/-- Row of vault_access_log (store.AuditEntry); the random row id and
the insertion timestamp are synthesized by the store and not inspected
by any claim. -/
structure AuditEntry where
  consumer : Str
  scope : Str
  action : Str
  purpose : Str
deriving DecidableEq

/-- Row of vault_tokens (store.Token). -/
structure Token where
  tokenStr : Str
  consumer : Str
  scope : Str
  expiresAt : Nat
  usage : Str
  createdAt : Nat
deriving DecidableEq

/-- State of the embedded database (store.DB): the four tables.  The
audit list is kept in insertion order; the newest-first SQL ordering of
reads is the reversal of that order. -/
structure DBState where
  fields : List Field
  meta : List (Str × MetaVal)
  tokens : List Token
  audit : List AuditEntry
deriving DecidableEq

/-- Embedding of store DB.GetMeta (audit.go sibling meta.go): value for
the key, none when absent (Go returns the empty string). -/
def DBState.getMeta (d : DBState) (k : Str) : Option MetaVal :=
  (d.meta.find? (fun kv => kv.fst = k)).map Prod.snd

/-- Embedding of store DB.SetMeta: upsert of a metadata key. -/
def DBState.setMeta (d : DBState) (k : Str) (v : MetaVal) : DBState :=
  if d.meta.any (fun kv => kv.fst = k) then
    { d with meta := d.meta.map (fun kv => if kv.fst = k then (k, v) else kv) }
  else { d with meta := d.meta ++ [(k, v)] }

/-- Embedding of store DB.IsInitialized: the salt metadata is present
(Go tests the value against the empty string; encoded salts are
non-empty). -/
def DBState.isInitialized (d : DBState) : Bool :=
  (d.getMeta ("salt".toList)).isSome

/-- Embedding of store DB.SetField: insert with version 1, or on an id
conflict update the value, conditionally the sensitivity (only when the
incoming tier is non-empty), the timestamp, and bump the version. -/
def DBState.setField (d : DBState) (f : Field) : DBState :=
  if d.fields.any (fun g => g.id = f.id) then
    { d with fields := d.fields.map (fun g =>
        if g.id = f.id then
          { g with value := f.value
                   sensitivity := if f.sensitivity ≠ [] then f.sensitivity else g.sensitivity
                   updatedAt := f.updatedAt
                   version := g.version + 1 }
        else g) }
  else { d with fields := d.fields ++ [{ f with version := 1 }] }

/-- Embedding of store DB.GetField: row with the given id, if any. -/
def DBState.getField (d : DBState) (id : Str) : Option Field :=
  d.fields.find? (fun g => g.id = id)

/-- Embedding of store DB.GetFieldsByCategory (rows with ciphertext);
the SQL ordering by field name only permutes the rows and is elided, as
every claim about this query is order-independent. -/
def DBState.getFieldsByCategory (d : DBState) (cat : Str) : List Field :=
  d.fields.filter (fun f => f.category = cat)

/-- Embedding of store DB.GetAllFields. -/
def DBState.getAllFields (d : DBState) : List Field :=
  d.fields

/-- Embedding of store DB.DeleteField. -/
def DBState.deleteField (d : DBState) (id : Str) : DBState :=
  { d with fields := d.fields.filter (fun f => f.id ≠ id) }

/-- Embedding of store DB.SetSensitivity: update tier and timestamp of
the matching row. -/
def DBState.setSensitivity (d : DBState) (id tier : Str) (now : Nat) : DBState :=
  { d with fields := d.fields.map (fun f =>
      if f.id = id then { f with sensitivity := tier, updatedAt := now } else f) }

/-- Embedding of store DB.CreateToken. -/
def DBState.createToken (d : DBState) (t : Token) : DBState :=
  { d with tokens := d.tokens ++ [t] }

/-- Embedding of store DB.GetToken: lookup by the stored token string;
an expired row reads as absent (expiry enforced at read time). -/
def DBState.getToken (d : DBState) (tok : Str) (now : Nat) : Option Token :=
  match d.tokens.find? (fun t => t.tokenStr = tok) with
  | none => none
  | some t => if now > t.expiresAt then none else some t

/-- Embedding of store DB.DeleteToken: rows deleted and the new state. -/
def DBState.deleteToken (d : DBState) (tok : Str) : Nat × DBState :=
  ((d.tokens.filter (fun t => t.tokenStr = tok)).length,
   { d with tokens := d.tokens.filter (fun t => t.tokenStr ≠ tok) })

/-- Embedding of store DB.ListTokensByUsage (creation-time ordering of
the SQL query elided; claims are order-independent). -/
def DBState.listTokensByUsage (d : DBState) (u : Str) : List Token :=
  d.tokens.filter (fun t => t.usage = u)

/-- Embedding of store DB.LogAccess: append one audit row. -/
def DBState.logAccess (d : DBState) (e : AuditEntry) : DBState :=
  { d with audit := d.audit ++ [e] }

/-! Session (internal/vault, session file): the in-memory key buffer and
token.  The model tracks the underlying byte buffer and the slice
reference separately, so that zero-filling the buffer (zeroKey writes
zeros through the slice, then drops it) is observable.  The idle timer
is modelled by its armed flag; its expiry is the autoLock event. -/

/-- In-memory session state: token string, key byte buffer, whether the
vaultKey slice still references the buffer, and whether the auto-lock
timer is armed. -/
structure BSession where
  token : Str
  keyBuf : List Nat
  keyRef : Bool
  timerOn : Bool
deriving DecidableEq

/-- Embedding of vault.NewSession: copy the caller's key into a fresh
buffer, install the freshly generated token, arm the idle timer. -/
def BSession.new (vaultKey : List Nat) (tok : Str) : BSession :=
  ⟨tok, vaultKey, true, true⟩

/-- Embedding of Session.VaultKey: a copy of the key, or none once the
slice has been dropped. -/
def BSession.vaultKey (s : BSession) : Option (List Nat) :=
  if s.keyRef then some s.keyBuf else none

/-- Embedding of Session.ValidateToken: false for an empty stored
token, otherwise a constant-time equality test. -/
def BSession.validateToken (s : BSession) (t : Str) : Bool :=
  if s.token = [] then false else s.token = t

/-- Embedding of Session.Touch: reset the idle timer (no observable
state change in this model). -/
def BSession.touch (s : BSession) : BSession := s

/-- Embedding of Session.zeroKey: overwrite every byte of the buffer
with zero through the slice, then drop the slice.  When the slice is
already nil the loop body never runs. -/
def BSession.zeroKey (s : BSession) : BSession :=
  if s.keyRef then
    { s with keyBuf := List.replicate s.keyBuf.length 0, keyRef := false }
  else s

/-- Embedding of Session.Destroy: zero the key first, then clear the
token and stop the timer. -/
def BSession.destroy (s : BSession) : BSession :=
  let s1 := s.zeroKey
  { s1 with token := [], timerOn := false }

/-- Embedding of Session.autoLock (the timer expiry body): zero the key
first, then clear the token and the timer; the vault-level callback runs
afterwards. -/
def BSession.autoLock (s : BSession) : BSession :=
  let s1 := s.zeroKey
  { s1 with token := [], timerOn := false }

/-! Vault core (internal/vault/vault.go).  The session seen by the
vault stores the symbolic master key; randomness (session and service
tokens) and the current time are explicit parameters. -/

/-- Session as referenced by the vault: token plus the optional master
key (none once the buffer was zeroized). -/
structure VSession where
  token : Str
  vaultKey : Option MKey
deriving DecidableEq

/-- State of a vault.Vault value: database, optional session, and the
salt cached at unlock time for HKDF derivation. -/
structure VaultState where
  db : DBState
  session : Option VSession
  salt : List Nat
deriving DecidableEq

/-- Error taxonomy of the vault core (the sentinel errors of vault.go
plus the wrapped decode and decrypt failures). -/
inductive VErr
  | locked
  | alreadyUnlocked
  | notInitialized
  | alreadyInit
  | wrongPassword
  | invalidTier
  | invalidID
  | decodeErr
  | decryptErr
deriving DecidableEq

/-- Result of a vault operation: outcome plus the post state. -/
abbrev VRes (α : Type) := Except VErr α × VaultState

/-- Embedding of vault.validTiers. -/
def validTier (s : Str) : Bool :=
  s = ("public".toList) || s = ("standard".toList) ||
  s = ("sensitive".toList) || s = ("critical".toList)

/-- Fixed plaintext sealed into the verification metadata at init. -/
def verificationConst : Str := "personal-vault-verification".toList

/-- Embedding of Vault.requireUnlocked: the master key when a session
exists and its key buffer is still present; the idle-timer refresh has
no observable effect here. -/
def VaultState.requireUnlocked (v : VaultState) : Option MKey :=
  match v.session with
  | none => none
  | some s => s.vaultKey

/-- Embedding of Vault.ValidateToken: delegate to the session. -/
def VaultState.validateToken (v : VaultState) (t : Str) : Bool :=
  match v.session with
  | none => false
  | some s => if s.token = [] then false else s.token = t

/-- Embedding of Vault.Unlock: refuse when already unlocked or not
initialized, load and decode the salt, decode the secret key, compare
the secret-key hash, derive the master key, open the verification
envelope and compare it to the constant, then install the session and
log the unlock.  freshToken stands for the generated session token. -/
def VaultState.unlock (v : VaultState) (password secretKeyHex freshToken : Str) :
    VRes Str :=
  if v.session.isSome then (.error .alreadyUnlocked, v)
  else if ¬ v.db.isInitialized then (.error .notInitialized, v)
  else match v.db.getMeta ("salt".toList) with
    | some (.bytes salt) =>
      match hexDecode (trimStr secretKeyHex) with
      | none => (.error .decodeErr, v)
      | some sk =>
        if ¬ (v.db.getMeta ("secret_key_hash".toList)
              = some (.hash (hashSecretKey sk))) then
          (.error .wrongPassword, v)
        else
          let vaultKey := MKey.master password sk salt
          match v.db.getMeta ("verification".toList) with
          | some (.cipher c) =>
            match decryptB64 vaultKey c with
            | none => (.error .wrongPassword, v)
            | some pt =>
              if ¬ (pt = verificationConst) then (.error .wrongPassword, v)
              else
                (.ok freshToken,
                 { v with
                   salt := salt,
                   session := some ⟨freshToken, some vaultKey⟩,
                   db := v.db.logAccess
                     ⟨("vault".toList), ("*".toList), ("unlock".toList), []⟩ })
          | _ => (.error .wrongPassword, v)
    | _ => (.error .decodeErr, v)

/-- Decryption of the stored verification metadata under a candidate
master key, as performed by step 6 of Vault.Unlock: absent or malformed
metadata fails like an authentication failure. -/
def decryptVerification (v : VaultState) (k : MKey) : Option Str :=
  match v.db.getMeta ("verification".toList) with
  | some (.cipher c) => decryptB64 k c
  | _ => none

/-- Embedding of Vault.Lock: idempotent; when a session exists, log the
lock and destroy the session. -/
def VaultState.lock (v : VaultState) : VaultState :=
  match v.session with
  | some _ =>
    { v with
      db := v.db.logAccess ⟨("vault".toList), ("*".toList), ("lock".toList), []⟩,
      session := none }
  | none => v

/-- Vault-side effect of the auto-lock callback firing: the session
reference is dropped (the session object itself was zeroized by
BSession.autoLock); no audit entry is written on this path. -/
def VaultState.autoLockFire (v : VaultState) : VaultState :=
  { v with session := none }

/-- Decrypted field as returned to callers (vault.FieldInfo); list
operations leave the value empty. -/
structure FieldInfo where
  id : Str
  category : Str
  fieldName : Str
  value : Str
  sensitivity : Str
  updatedAt : Nat
  version : Nat
deriving DecidableEq

/-- FieldInfo assembled from a stored row and its decrypted value. -/
def toInfo (f : Field) (pt : Str) : FieldInfo :=
  ⟨f.id, f.category, f.fieldName, pt, f.sensitivity, f.updatedAt, f.version⟩

/-- FieldInfo for metadata-only listings: the value stays empty. -/
def toMetaInfo (f : Field) : FieldInfo :=
  ⟨f.id, f.category, f.fieldName, [], f.sensitivity, f.updatedAt, f.version⟩

/-- Embedding of Vault.Set: validate the identifier, require the master
key, split the identifier, derive the category subkey, seal the value,
normalize the tier (empty becomes standard), reject an unknown tier,
upsert the row and log the write.  now stands for time.Now(). -/
def VaultState.set (v : VaultState) (now : Nat) (id value sensitivity : Str) :
    VRes Unit :=
  if ¬ validFieldID id then (.error .invalidID, v)
  else match v.requireUnlocked with
  | none => (.error .locked, v)
  | some key =>
    let category := idCat id
    let fieldName := idNamePart id
    let encrypted := encryptB64 (MKey.subkey key v.salt category) value
    let sens := if sensitivity = [] then ("standard".toList) else sensitivity
    if ¬ validTier sens then (.error .invalidTier, v)
    else
      let d1 := v.db.setField ⟨id, category, fieldName, encrypted, sens, now, 1⟩
      (.ok (),
       { v with db := d1.logAccess ⟨("vault".toList), id, ("write".toList), []⟩ })

/-- Embedding of Vault.Get: require the master key, load the row,
derive the subkey from the row's category, open the envelope, log the
read.  A missing row is a successful none without an audit entry. -/
def VaultState.get (v : VaultState) (id : Str) : VRes (Option FieldInfo) :=
  match v.requireUnlocked with
  | none => (.error .locked, v)
  | some key =>
    match v.db.getField id with
    | none => (.ok none, v)
    | some f =>
      match decryptB64 (MKey.subkey key v.salt f.category) f.value with
      | none => (.error .decryptErr, v)
      | some pt =>
        (.ok (some (toInfo f pt)),
         { v with db := (v.db.logAccess ⟨("vault".toList), id, ("read".toList), []⟩) })

/-- Embedding of Vault.List: metadata of every row, no values, no audit
entry. -/
def VaultState.listAll (v : VaultState) : VRes (List FieldInfo) :=
  match v.requireUnlocked with
  | none => (.error .locked, v)
  | some _ => (.ok (v.db.fields.map toMetaInfo), v)

/-- Embedding of Vault.ListByCategory: metadata of one category. -/
def VaultState.listByCategory (v : VaultState) (category : Str) :
    VRes (List FieldInfo) :=
  match v.requireUnlocked with
  | none => (.error .locked, v)
  | some _ => (.ok ((v.db.getFieldsByCategory category).map toMetaInfo), v)

/-- Decryption loop of Vault.GetByCategory: every row of the category is
opened under the single subkey derived for the requested category; the
first authentication failure aborts. -/
def decryptWith (k : MKey) : List Field → Option (List FieldInfo)
  | [] => some []
  | f :: rest =>
    match decryptB64 k f.value with
    | none => none
    | some pt => (decryptWith k rest).map (fun r => toInfo f pt :: r)

/-- Embedding of Vault.GetByCategory: decrypt all rows of the category
under its subkey and log the read with scope category.*. -/
def VaultState.getByCategory (v : VaultState) (category : Str) :
    VRes (List FieldInfo) :=
  match v.requireUnlocked with
  | none => (.error .locked, v)
  | some key =>
    match decryptWith (MKey.subkey key v.salt category)
        (v.db.getFieldsByCategory category) with
    | none => (.error .decryptErr, v)
    | some infos =>
      (.ok infos,
       { v with db := (v.db.logAccess
           ⟨("vault".toList), category ++ (".*".toList), ("read".toList), []⟩) })

/-- Decryption loop of Vault.GetContext: each row is opened under the
subkey of its own category (the per-call subkey cache of the source only
avoids recomputation). -/
def decryptEach (key : MKey) (salt : List Nat) : List Field → Option (List FieldInfo)
  | [] => some []
  | f :: rest =>
    match decryptB64 (MKey.subkey key salt f.category) f.value with
    | none => none
    | some pt => (decryptEach key salt rest).map (fun r => toInfo f pt :: r)

/-- Embedding of Vault.GetContext: decrypt every row and log the
context read.  The per-category grouping of the returned bundle is a
re-arrangement of this flat list and is elided: the claims about this
operation concern its audit effect. -/
def VaultState.getContext (v : VaultState) : VRes (List FieldInfo) :=
  match v.requireUnlocked with
  | none => (.error .locked, v)
  | some key =>
    match decryptEach key v.salt v.db.getAllFields with
    | none => (.error .decryptErr, v)
    | some infos =>
      (.ok infos,
       { v with db := (v.db.logAccess
           ⟨("vault".toList), ("*".toList), ("context".toList), []⟩) })

/-- Embedding of Vault.Delete: require the key, delete the row, log the
delete. -/
def VaultState.delete (v : VaultState) (id : Str) : VRes Unit :=
  match v.requireUnlocked with
  | none => (.error .locked, v)
  | some _ =>
    (.ok (),
     { v with db := ((v.db.deleteField id).logAccess
         ⟨("vault".toList), id, ("delete".toList), []⟩) })

/-- Embedding of Vault.SetSensitivity: require the key, validate the
tier, update the row.  The source writes no audit entry on this path. -/
def VaultState.setSensitivity (v : VaultState) (now : Nat) (id tier : Str) :
    VRes Unit :=
  match v.requireUnlocked with
  | none => (.error .locked, v)
  | some _ =>
    if ¬ validTier tier then (.error .invalidTier, v)
    else (.ok (), { v with db := v.db.setSensitivity id tier now })

/-- Embedding of Vault.CreateServiceToken: require the key, persist the
hash of the fresh raw token with consumer, scope and expiry, log the
creation, return the raw token.  rawToken stands for the 32 random
bytes hex-encoded. -/
def VaultState.createServiceToken (v : VaultState) (now : Nat)
    (consumer scope : Str) (ttl : Nat) (rawToken : Str) : VRes Str :=
  match v.requireUnlocked with
  | none => (.error .locked, v)
  | some _ =>
    let t : Token :=
      ⟨hashServiceToken rawToken, consumer, scope, now + ttl, ("service".toList), now⟩
    (.ok rawToken,
     { v with db := ((v.db.createToken t).logAccess
         ⟨("vault".toList), scope, ("create_service_token".toList),
          ("consumer: ".toList) ++ consumer⟩) })

/-- Embedding of Vault.ValidateServiceToken: hash, look up (expiry
enforced by the store read), require service usage. -/
def VaultState.validateServiceToken (v : VaultState) (now : Nat) (token : Str) :
    Option Token :=
  match v.db.getToken (hashServiceToken token) now with
  | none => none
  | some t => if t.usage = ("service".toList) then some t else none

/-- Embedding of Vault.ListServiceTokens. -/
def VaultState.listServiceTokens (v : VaultState) : VRes (List Token) :=
  match v.requireUnlocked with
  | none => (.error .locked, v)
  | some _ => (.ok (v.db.listTokensByUsage ("service".toList)), v)

/-- Embedding of Vault.RevokeServiceToken: hash the supplied value,
delete matching rows, log only on a positive count, return the count. -/
def VaultState.revokeServiceToken (v : VaultState) (token : Str) : VRes Nat :=
  match v.requireUnlocked with
  | none => (.error .locked, v)
  | some _ =>
    let nd := v.db.deleteToken (hashServiceToken token)
    if nd.fst > 0 then
      (.ok nd.fst,
       { v with db := (nd.snd.logAccess
           ⟨("vault".toList), ("*".toList), ("revoke_service_token".toList), []⟩) })
    else (.ok nd.fst, { v with db := nd.snd })

/-! HTTP surface (internal/api).  The request carries the result of the
authentication middleware: the class tag (session or service) and the
resolved scope.  JSON decoding of bodies, query-string parsing and the
network layer are passthroughs; a body is modelled as its decoded form,
with none standing for malformed JSON. -/

/-- Error response: HTTP status plus the stable constraint token. -/
structure ApiErr where
  status : Nat
  constraint : Str
deriving DecidableEq

/-- Result of a handler: response or error, plus the post state. -/
abbrev HRes (α : Type) := Except ApiErr α × VaultState

/-- Authenticated request as tagged by the middleware: class (session
versus service) and the resolved scope (session tokens get star). -/
structure Req where
  isSession : Bool
  scope : Str
deriving DecidableEq

/-- Response of api.sessionRequired. -/
def sessionRequiredErr : ApiErr := ⟨403, "session_required".toList⟩

/-- Embedding of api.handleVaultError: translate a core error to the
constraint taxonomy; everything unlisted is the opaque internal error. -/
def handleVaultError (e : VErr) : ApiErr :=
  match e with
  | .locked => ⟨403, "vault_locked".toList⟩
  | .alreadyUnlocked => ⟨409, "conflict".toList⟩
  | .notInitialized => ⟨412, "not_initialized".toList⟩
  | .invalidTier => ⟨400, "invalid_request".toList⟩
  | _ => ⟨500, "internal".toList⟩

/-- Embedding of api.handleLock (POST /vault/lock): session class
required, then an idempotent lock. -/
def handleLock (v : VaultState) (r : Req) : HRes Unit :=
  if ¬ r.isSession then (.error sessionRequiredErr, v)
  else (.ok (), v.lock)

/-- Embedding of api.handleAuditLog (GET /vault/audit): session class
required; limit defaulted to 50, floored at 1 and clamped to 1000 by the
source checks (non-positive parses are ignored); entries newest first.
Query-string parsing is a passthrough, so the parsed limit arrives as an
optional number. -/
def handleAuditLog (v : VaultState) (r : Req) (limReq : Option Nat) :
    HRes (List AuditEntry) :=
  if ¬ r.isSession then (.error sessionRequiredErr, v)
  else
    let base := match limReq with
      | some n => if n > 0 then n else 50
      | none => 50
    let lim := if base > 1000 then 1000 else base
    (.ok (v.db.audit.reverse.take lim), v)

/-- Decoded body of POST /vault/tokens/service; the ttl field is absent,
a parsed duration, or an unparsable string. -/
inductive TtlIn
  | absent
  | bad
  | dur (n : Nat)
deriving DecidableEq

/-- Decoded create-token request body. -/
structure CreateTokenBody where
  consumer : Str
  scope : Str
  ttl : TtlIn
deriving DecidableEq

/-- Default service-token lifetime of the handler: one year, in the
time unit of the model. -/
def defaultTokenTTL : Nat := 365 * 24 * 60 * 60

/-- Embedding of api.handleCreateServiceToken (POST
/vault/tokens/service): session class required, body must decode, the
consumer is mandatory, the scope defaults to star, the ttl defaults to
one year; returns the raw token and the expiry instant. -/
def handleCreateServiceToken (v : VaultState) (r : Req) (now : Nat)
    (body : Option CreateTokenBody) (rawToken : Str) : HRes (Str × Nat) :=
  if ¬ r.isSession then (.error sessionRequiredErr, v)
  else match body with
  | none => (.error ⟨400, "invalid_request".toList⟩, v)
  | some b =>
    if b.consumer = [] then (.error ⟨400, "invalid_request".toList⟩, v)
    else
      let scope := if b.scope = [] then ("*".toList) else b.scope
      match b.ttl with
      | .bad => (.error ⟨400, "invalid_request".toList⟩, v)
      | .absent =>
        match v.createServiceToken now b.consumer scope defaultTokenTTL rawToken with
        | (.error e, v1) => (.error (handleVaultError e), v1)
        | (.ok tok, v1) => (.ok (tok, now + defaultTokenTTL), v1)
      | .dur ttl =>
        match v.createServiceToken now b.consumer scope ttl rawToken with
        | (.error e, v1) => (.error (handleVaultError e), v1)
        | (.ok tok, v1) => (.ok (tok, now + ttl), v1)

/-- Hash-prefix display of api.handleListServiceTokens: first eight
characters of the stored hash followed by an ellipsis. -/
def tokenDisplay (s : Str) : Str :=
  if s.length > 8 then s.take 8 ++ ("...".toList) else s

/-- Embedding of api.handleListServiceTokens (GET
/vault/tokens/service): session class required; stored hashes are
reduced to display prefixes. -/
def handleListServiceTokens (v : VaultState) (r : Req) : HRes (List Str) :=
  if ¬ r.isSession then (.error sessionRequiredErr, v)
  else match v.listServiceTokens with
  | (.error e, v1) => (.error (handleVaultError e), v1)
  | (.ok toks, v1) => (.ok (toks.map (fun t => tokenDisplay t.tokenStr)), v1)

/-- Embedding of api.handleRevokeServiceToken (DELETE
/vault/tokens/service/{token}): session class required, non-empty path
value required, revoke by hash, 404 when nothing was deleted. -/
def handleRevokeServiceToken (v : VaultState) (r : Req) (tokenPath : Str) :
    HRes Nat :=
  if ¬ r.isSession then (.error sessionRequiredErr, v)
  else if tokenPath = [] then (.error ⟨400, "invalid_request".toList⟩, v)
  else match v.revokeServiceToken tokenPath with
  | (.error e, v1) => (.error (handleVaultError e), v1)
  | (.ok n, v1) =>
    if n = 0 then (.error ⟨404, "not_found".toList⟩, v1)
    else (.ok n, v1)

/-- Embedding of api.handleGetByCategory (GET
/vault/fields/category/{category}): validate the category name, check
the category against the scope, fetch and decrypt the category, then
post-filter each field through the per-field scope check. -/
def handleGetByCategory (v : VaultState) (r : Req) (category : Str) :
    HRes (List FieldInfo) :=
  if ¬ validCategoryName category then (.error ⟨400, "invalid_request".toList⟩, v)
  else if ¬ scopeAllowsCategory r.scope category then
    (.error ⟨403, "scope_exceeded".toList⟩, v)
  else match v.getByCategory category with
  | (.error e, v1) => (.error (handleVaultError e), v1)
  | (.ok fields, v1) => (.ok (fields.filter (fun f => scopeAllows r.scope f.id)), v1)

/-! Concrete sample states used to instantiate the theorems. -/

/-- Sample device secret key bytes. -/
def skBytes : List Nat := [10, 20]

/-- Sample salt bytes. -/
def saltBytes : List Nat := [1, 2]

/-- Sample password. -/
def pw0 : Str := "hunter2hunter2".toList

/-- Master key of the sample vault. -/
def masterKey0 : MKey := .master pw0 skBytes saltBytes

/-- Session of the sample unlocked vault. -/
def sess0 : VSession := ⟨("tok".toList), some masterKey0⟩

/-- Database of an initialized sample vault: salt, secret-key hash and
verification envelope present, no fields, tokens or audit rows. -/
def dbInit : DBState :=
  ⟨[],
   [(("salt".toList), .bytes saltBytes),
    (("secret_key_hash".toList), .hash (hashSecretKey skBytes)),
    (("verification".toList), .cipher (encryptB64 masterKey0 verificationConst))],
   [], []⟩

/-- Sample initialized, locked vault. -/
def vLocked : VaultState := ⟨dbInit, none, []⟩

/-- Sample initialized, unlocked vault. -/
def vOpen : VaultState := ⟨dbInit, some sess0, saltBytes⟩

/-- Sample stored field identity.full_name of the unlocked vault. -/
def fIdentityName : Field :=
  ⟨("identity.full_name".toList), ("identity".toList), ("full_name".toList),
   encryptB64 (MKey.subkey masterKey0 saltBytes ("identity".toList))
     ("Cool Cucumber".toList),
   ("standard".toList), 5, 1⟩

/-- Sample stored field identity.dob of the unlocked vault. -/
def fIdentityDob : Field :=
  ⟨("identity.dob".toList), ("identity".toList), ("dob".toList),
   encryptB64 (MKey.subkey masterKey0 saltBytes ("identity".toList))
     ("1990-01-01".toList),
   ("sensitive".toList), 6, 1⟩

/-- Sample unlocked vault holding two identity fields. -/
def vFields : VaultState :=
  { vOpen with db := { dbInit with fields := [fIdentityName, fIdentityDob] } }

/-- Raw value of the sample service token. -/
def rawTok0 : Str := "abc123".toList

/-- Stored row of the sample service token: the table keeps the hash. -/
def svcTok0 : Token :=
  ⟨hashServiceToken rawTok0, ("life".toList), ("*".toList), 1000,
   ("service".toList), 1⟩

/-- Sample unlocked vault holding one service token. -/
def vTok : VaultState :=
  { vOpen with db := { dbInit with tokens := [svcTok0] } }

/-- Sample live byte-level session. -/
def bsess0 : BSession := BSession.new [7, 7, 7] ("tok".toList)

/-! Helper lemmas about the string primitives. -/

theorem startsWithStr_iff : ∀ (s p : Str), startsWithStr s p = true ↔ p <+: s
  | _, [] => by simp [startsWithStr]
  | [], _ :: _ => by simp [startsWithStr]
  | c :: cs, p :: ps => by
    simp only [startsWithStr, Bool.and_eq_true, decide_eq_true_eq,
      List.cons_prefix_cons, startsWithStr_iff cs ps]

theorem endsWithStr_iff (s p : Str) : endsWithStr s p = true ↔ p <:+ s := by
  rw [endsWithStr, startsWithStr_iff, List.reverse_prefix]

theorem splitFirstDot_eq :
    ∀ (id c n : Str), splitFirstDot id = some (c, n) →
      id = c ++ '.' :: n ∧ ∀ a ∈ c, a ≠ '.'
  | [], c, n => by simp [splitFirstDot]
  | x :: xs, c, n => by
    simp only [splitFirstDot]
    by_cases hx : x = '.'
    · subst hx
      simp only [if_pos rfl, Option.some.injEq, Prod.mk.injEq]
      rintro ⟨rfl, rfl⟩
      simp
    · simp only [if_neg hx]
      cases hs : splitFirstDot xs with
      | none => simp
      | some ab =>
        obtain ⟨a, b⟩ := ab
        simp only [Option.some.injEq, Prod.mk.injEq]
        rintro ⟨rfl, rfl⟩
        obtain ⟨h1, h2⟩ := splitFirstDot_eq xs a _ hs
        subst h1
        refine ⟨rfl, ?_⟩
        intro z hz
        rcases List.mem_cons.mp hz with rfl | hz2
        · exact hx
        · exact h2 z hz2

theorem splitFirstDot_append :
    ∀ (c n : Str), (∀ a ∈ c, a ≠ '.') →
      splitFirstDot (c ++ '.' :: n) = some (c, n)
  | [], n, _ => by simp [splitFirstDot]
  | x :: xs, n, hc => by
    have hx : x ≠ '.' := hc x (by simp)
    have ih := splitFirstDot_append xs n (fun a ha => hc a (by simp [ha]))
    simp only [List.cons_append, splitFirstDot, if_neg hx, List.append_eq, ih]

theorem validFieldID_parts (id : Str) (h : validFieldID id = true) :
    ∃ c n, id = c ++ '.' :: n ∧ splitFirstDot id = some (c, n) ∧
      c ≠ [] ∧ n ≠ [] ∧
      (∀ a ∈ c, validChar a = true) ∧ (∀ a ∈ n, validChar a = true) := by
  unfold validFieldID at h
  cases hs : splitFirstDot id with
  | none => rw [hs] at h; exact absurd h (by simp)
  | some cn =>
    obtain ⟨c, n⟩ := cn
    rw [hs] at h
    simp only [Bool.and_eq_true, decide_eq_true_eq, List.all_eq_true] at h
    obtain ⟨⟨⟨hc, hn⟩, hcall⟩, hnall⟩ := h
    obtain ⟨heq, _⟩ := splitFirstDot_eq id c n hs
    exact ⟨c, n, heq, rfl, hc, hn, hcall, hnall⟩

theorem validChar_not_special (a : Char) (h : validChar a = true) :
    a ≠ '.' ∧ a ≠ ',' ∧ a ≠ '*' ∧ a.isWhitespace = false := by
  refine ⟨?_, ?_, ?_, ?_⟩
  · rintro rfl; exact absurd h (by decide)
  · rintro rfl; exact absurd h (by decide)
  · rintro rfl; exact absurd h (by decide)
  · by_contra hw
    simp only [Bool.not_eq_false] at hw
    simp only [Char.isWhitespace] at hw
    rcases Bool.or_eq_true_iff.mp hw with hw | hw
    · rcases Bool.or_eq_true_iff.mp hw with hw | hw
      · rcases Bool.or_eq_true_iff.mp hw with hw | hw <;>
          { rw [decide_eq_true_eq] at hw; subst hw; exact absurd h (by decide) }
      · rw [decide_eq_true_eq] at hw; subst hw; exact absurd h (by decide)
    · rw [decide_eq_true_eq] at hw; subst hw; exact absurd h (by decide)

theorem startsWith_cat_dot :
    ∀ (cat c : Str) (n : Str), (∀ a ∈ c, a ≠ '.') → (∀ a ∈ n, a ≠ '.') →
      (startsWithStr (c ++ '.' :: n) (cat ++ ['.']) = true ↔ cat = c)
  | [], [], n, _, _ => by simp [startsWithStr]
  | [], x :: xs, n, hc, _ => by
    have hx : x ≠ '.' := hc x (by simp)
    simp [startsWithStr, hx, Ne.symm hx]
  | b :: cat2, [], n, _, hn => by
    simp only [List.nil_append, List.cons_append, startsWithStr,
      Bool.and_eq_true, decide_eq_true_eq]
    constructor
    · rintro ⟨rfl, hrest⟩
      have hmem : '.' ∈ n :=
        ((startsWithStr_iff n (cat2 ++ ['.'])).mp hrest).mem (by simp)
      exact absurd rfl (hn '.' hmem)
    · rintro h
      exact absurd h (by simp)
  | b :: cat2, x :: xs, n, hc, hn => by
    simp only [List.cons_append, startsWithStr, Bool.and_eq_true, decide_eq_true_eq,
      List.append_eq]
    rw [startsWith_cat_dot cat2 xs n (fun a ha => hc a (by simp [ha])) hn]
    constructor
    · rintro ⟨rfl, rfl⟩; rfl
    · rintro h
      injection h with h1 h2
      exact ⟨h1, h2⟩

theorem endsWith_star_decomp (p : Str) (h : endsWithStr p (".*".toList) = true) :
    p = dropStarSuffix p ++ (".*".toList) := by
  obtain ⟨t, ht⟩ := (endsWithStr_iff p (".*".toList)).mp h
  subst ht
  have hlen : (t ++ (".*".toList)).length - 2 = t.length := by simp
  rw [dropStarSuffix, hlen, List.take_left]

theorem idCat_of_valid (c n : Str) (hc : ∀ a ∈ c, a ≠ '.') :
    idCat (c ++ '.' :: n) = c := by
  rw [idCat, splitFirstDot_append c n hc]
  rfl

theorem patternAllows_iff_spec (p id : Str) (hid : validFieldID id = true) :
    (patternAllows p id = true ↔ specPatternMatches p id = true) := by
  obtain ⟨c, n, heq, _, _, _, hcall, hnall⟩ := validFieldID_parts id hid
  unfold patternAllows specPatternMatches
  by_cases h1 : p = ("*".toList)
  · simp [h1]
  · rw [if_neg h1, if_neg h1]
    by_cases h2 : endsWithStr p (".*".toList) = true
    · rw [if_pos h2, if_pos h2]
      subst heq
      rw [startsWith_cat_dot (dropStarSuffix p) c n
        (fun a ha => (validChar_not_special a (hcall a ha)).1)
        (fun a ha => (validChar_not_special a (hnall a ha)).1)]
      rw [idCat_of_valid c n (fun a ha => (validChar_not_special a (hcall a ha)).1)]
      simp [eq_comm]
    · rw [if_neg h2, if_neg h2]

/-- Claim C4 statement, code side related to the specification text:
for every valid field identifier, the implementation accepts exactly
when some comma-separated, trimmed pattern matches under the
specification semantics, and the empty scope matches nothing. -/
theorem scopeAllows_correct (scope id : Str) (hid : validFieldID id = true) :
    (scopeAllows scope id = true ↔
      ∃ p ∈ (splitComma scope []).map trimStr, specPatternMatches p id = true)
    ∧ scopeAllows [] id = false := by
  obtain ⟨c, n, heq, _, _, _, _, _⟩ := validFieldID_parts id hid
  constructor
  · rw [scopeAllows, List.any_eq_true]
    constructor
    · rintro ⟨p0, hp0, hm⟩
      exact ⟨trimStr p0, List.mem_map.mpr ⟨p0, hp0, rfl⟩,
        (patternAllows_iff_spec _ id hid).mp hm⟩
    · rintro ⟨p, hp, hm⟩
      obtain ⟨p0, hp0, rfl⟩ := List.mem_map.mp hp
      exact ⟨p0, hp0, (patternAllows_iff_spec _ id hid).mpr hm⟩
  · have hne : id ≠ [] := by
      subst heq; cases c <;> simp
    simp only [scopeAllows, splitComma, List.reverse_nil, List.any_cons,
      List.any_nil, Bool.or_false]
    simp only [trimStr, patternAllows, List.dropWhile_nil, List.reverse_nil]
    rw [if_neg (by decide), if_neg (by decide)]
    simpa using hne

/-- Witness for C4: the concrete scope identity.* against the concrete
identifier identity.full_name. -/
theorem scopeAllows_correct_witness :
    validFieldID ("identity.full_name".toList) = true ∧
    ((scopeAllows ("identity.*".toList) ("identity.full_name".toList) = true ↔
       ∃ p ∈ (splitComma ("identity.*".toList) []).map trimStr,
         specPatternMatches p ("identity.full_name".toList) = true)
     ∧ scopeAllows [] ("identity.full_name".toList) = false) :=
  ⟨by decide,
   scopeAllows_correct ("identity.*".toList) ("identity.full_name".toList) (by decide)⟩

/-! Helper lemmas about the store operations. -/

theorem find?_append_of_none {α : Type} (l1 l2 : List α) (p : α → Bool)
    (h : l1.find? p = none) : (l1 ++ l2).find? p = l2.find? p := by
  induction l1 with
  | nil => rfl
  | cons a l ih =>
    rw [List.find?_cons] at h
    cases hp : p a with
    | true => rw [hp] at h; exact absurd h (by simp)
    | false =>
      rw [hp] at h
      rw [List.cons_append, List.find?_cons, hp]
      exact ih h

theorem find?_map_ite (l : List Field) (id : Str) (u : Field → Field) (g : Field)
    (hu : ∀ x, (u x).id = x.id)
    (hfind : l.find? (fun x => x.id = id) = some g) :
    (l.map (fun x => if x.id = id then u x else x)).find? (fun x => x.id = id)
      = some (u g) := by
  induction l with
  | nil => exact absurd hfind (by simp)
  | cons a l ih =>
    by_cases ha : a.id = id
    · rw [List.find?_cons_of_pos _ (by simp [ha])] at hfind
      injection hfind with hg
      subst hg
      rw [List.map_cons, if_pos ha]
      exact List.find?_cons_of_pos _ (by simp [hu, ha])
    · rw [List.find?_cons_of_neg _ (by simp [ha])] at hfind
      rw [List.map_cons, if_neg ha]
      rw [List.find?_cons_of_neg _ (by simp [ha])]
      exact ih hfind

theorem getField_setField_fresh (d : DBState) (f : Field)
    (h : ∀ g ∈ d.fields, g.id ≠ f.id) :
    (d.setField f).getField f.id = some { f with version := 1 } := by
  have hany : d.fields.any (fun g => g.id = f.id) = false := by
    rw [List.any_eq_false]
    intro g hg
    simp [h g hg]
  have hnone : d.fields.find? (fun g => g.id = f.id) = none := by
    rw [List.find?_eq_none]
    intro g hg
    simp [h g hg]
  rw [DBState.setField, if_neg (by simp [hany]), DBState.getField]
  rw [find?_append_of_none _ _ _ hnone]
  simp [List.find?_cons_of_pos]

theorem getField_setField_existing (d : DBState) (f g : Field)
    (hg : d.getField f.id = some g) :
    (d.setField f).getField f.id =
      some { g with
             value := f.value,
             sensitivity := if f.sensitivity ≠ [] then f.sensitivity else g.sensitivity,
             updatedAt := f.updatedAt,
             version := g.version + 1 } := by
  rw [DBState.getField] at hg
  have hmem := List.mem_of_find?_eq_some hg
  have hpred := List.find?_some hg
  have hany : d.fields.any (fun x => x.id = f.id) = true := by
    rw [List.any_eq_true]
    exact ⟨g, hmem, hpred⟩
  rw [DBState.setField, if_pos (by simp_all), DBState.getField]
  exact find?_map_ite d.fields f.id _ g (fun x => rfl) hg

theorem getField_setField (d : DBState) (f : Field) (hne : f.sensitivity ≠ []) :
    ∃ r, (d.setField f).getField f.id = some r ∧
      r.id = f.id ∧ r.value = f.value ∧ r.sensitivity = f.sensitivity ∧
      r.updatedAt = f.updatedAt ∧
      (r.category = f.category ∨
        ∃ g ∈ d.fields, g.id = f.id ∧ r.category = g.category) := by
  cases hfind : d.fields.find? (fun x => x.id = f.id) with
  | none =>
    refine ⟨{ f with version := 1 }, ?_, rfl, rfl, rfl, rfl, Or.inl rfl⟩
    apply getField_setField_fresh
    intro g hg hid
    rw [List.find?_eq_none] at hfind
    have hcontra := hfind g hg
    simp [hid] at hcontra
  | some g =>
    have hgid : g.id = f.id := by simpa using List.find?_some hfind
    refine ⟨_, getField_setField_existing d f g hfind, hgid, rfl, ?_, rfl, ?_⟩
    · show (if f.sensitivity ≠ [] then f.sensitivity else g.sensitivity) = f.sensitivity
      rw [if_pos hne]
    · exact Or.inr ⟨g, List.mem_of_find?_eq_some hfind, hgid, rfl⟩

theorem getField_logAccess (d : DBState) (e : AuditEntry) (id : Str) :
    (d.logAccess e).getField id = d.getField id := rfl

theorem validTier_ne_nil (s : Str) (h : validTier s = true) : s ≠ [] := by
  rintro rfl
  exact absurd h (by decide)

/-- Claim C7: a row is stored with version 1 on its initial insert, a
successful update of an existing id bumps the stored version by exactly
one, and after two consecutive sets on the same id the stored version is
2 while the stored timestamp is the second one, hence at least the first
under monotone wall-clock time. -/
theorem field_version_monotone (d : DBState) (f1 f2 : Field)
    (hfresh : ∀ g ∈ d.fields, g.id ≠ f1.id)
    (hid : f2.id = f1.id) (ht : f1.updatedAt ≤ f2.updatedAt) :
    ((d.setField f1).getField f1.id = some { f1 with version := 1 })
    ∧ (∀ (d2 : DBState) (g : Field), d2.getField f2.id = some g →
        ((d2.setField f2).getField f2.id).map Field.version = some (g.version + 1))
    ∧ (∃ r, ((d.setField f1).setField f2).getField f1.id = some r ∧
        r.version = 2 ∧ r.updatedAt = f2.updatedAt ∧ f1.updatedAt ≤ r.updatedAt) := by
  have h1 := getField_setField_fresh d f1 hfresh
  refine ⟨h1, ?_, ?_⟩
  · intro d2 g hg
    rw [getField_setField_existing d2 f2 g hg]
    rfl
  · have h2 : (d.setField f1).getField f2.id = some { f1 with version := 1 } := by
      rw [hid]; exact h1
    have h3 := getField_setField_existing (d.setField f1) f2 _ h2
    rw [hid] at h3
    exact ⟨_, h3, rfl, rfl, ht⟩

/-- Witness for C7: two consecutive sets of identity.full_name on the
empty table, the second at a later time. -/
theorem field_version_monotone_witness :
    ∃ r, ((dbInit.setField fIdentityName).setField
        { fIdentityName with updatedAt := 9 }).getField fIdentityName.id = some r ∧
      r.version = 2 ∧ r.updatedAt = 9 ∧ fIdentityName.updatedAt ≤ r.updatedAt := by
  have h := field_version_monotone dbInit fIdentityName
    { fIdentityName with updatedAt := 9 }
    (by intro g hg; simp [dbInit] at hg) rfl (by decide)
  exact h.2.2

/-! Equation lemmas for the vault operations on an unlocked state,
following the branch structure of the source. -/

theorem requireUnlocked_some (v : VaultState) (tok : Str) (key : MKey)
    (hsess : v.session = some ⟨tok, some key⟩) : v.requireUnlocked = some key := by
  rw [VaultState.requireUnlocked, hsess]

theorem set_ok_eq (v : VaultState) (key : MKey)
    (hreq : v.requireUnlocked = some key) (now : Nat) (id value s : Str)
    (hid : validFieldID id = true)
    (hval : validTier (if s = [] then ("standard".toList) else s) = true) :
    v.set now id value s =
      (.ok (), { v with db := ((v.db.setField
          ⟨id, idCat id, idNamePart id,
           encryptB64 (MKey.subkey key v.salt (idCat id)) value,
           (if s = [] then ("standard".toList) else s), now, 1⟩).logAccess
            ⟨("vault".toList), id, ("write".toList), []⟩) }) := by
  unfold VaultState.set
  split
  · next h => exact absurd hid (by simpa using h)
  · split
    · next heq => rw [hreq] at heq; exact absurd heq (by simp)
    · next key2 heq =>
      rw [hreq] at heq
      injection heq with heq2
      subst heq2
      dsimp only
      split
      · next hnil =>
        rw [if_pos hnil] at hval
        rw [if_neg (not_not_intro hval)]
      · next hnn =>
        rw [if_neg hnn] at hval
        rw [if_neg (not_not_intro hval)]

theorem set_err_tier_eq (v : VaultState) (key : MKey)
    (hreq : v.requireUnlocked = some key) (now : Nat) (id value s : Str)
    (hid : validFieldID id = true)
    (hbad : validTier (if s = [] then ("standard".toList) else s) = false) :
    v.set now id value s = (.error .invalidTier, v) := by
  unfold VaultState.set
  split
  · next h => exact absurd hid (by simpa using h)
  · split
    · next heq => rw [hreq] at heq; exact absurd heq (by simp)
    · next key2 heq =>
      rw [hreq] at heq
      injection heq with heq2
      subst heq2
      dsimp only
      split
      · next hnil =>
        rw [if_pos hnil] at hbad
        exact absurd hbad (by decide)
      · next hnn =>
        rw [if_neg hnn] at hbad
        rw [if_pos (by simp [hbad])]

theorem get_ok_eq (v : VaultState) (key : MKey)
    (hreq : v.requireUnlocked = some key) (id : Str) (r : Field) (pt : Str)
    (hgf : v.db.getField id = some r)
    (hdec : decryptB64 (MKey.subkey key v.salt r.category) r.value = some pt) :
    v.get id =
      (.ok (some (toInfo r pt)),
       { v with db := (v.db.logAccess
           ⟨("vault".toList), id, ("read".toList), []⟩) }) := by
  unfold VaultState.get
  split
  · next heq => rw [hreq] at heq; exact absurd heq (by simp)
  · next key2 heq =>
    rw [hreq] at heq
    injection heq with heq2
    subst heq2
    split
    · next heq2 => rw [hgf] at heq2; exact absurd heq2 (by simp)
    · next r2 heq2 =>
      rw [hgf] at heq2
      injection heq2 with heq3
      subst heq3
      split
      · next heq3 => rw [hdec] at heq3; exact absurd heq3 (by simp)
      · next pt2 heq3 =>
        rw [hdec] at heq3
        injection heq3 with heq4
        subst heq4
        rfl

/-- Claim C8: on an unlocked vault with a valid identifier, an empty
tier is normalized to standard, and that normalized non-empty value is
what reaches the store (so the store's keep-old-sensitivity conditional
is never exercised by the core); a non-empty tier outside the
enumeration fails with invalid_tier and leaves the state untouched. -/
theorem set_tier_normalization (v : VaultState) (now : Nat) (id value s : Str)
    (tok : Str) (key : MKey)
    (hid : validFieldID id = true)
    (hsess : v.session = some ⟨tok, some key⟩) :
    (validTier (if s = [] then ("standard".toList) else s) = true →
      ∃ v1 r, v.set now id value s = (.ok (), v1) ∧
        v1.db.getField id = some r ∧
        r.sensitivity = (if s = [] then ("standard".toList) else s) ∧
        (if s = [] then ("standard".toList) else s) ≠ [])
    ∧ (s ≠ [] → validTier s = false →
        v.set now id value s = (.error .invalidTier, v)) := by
  have hreq := requireUnlocked_some v tok key hsess
  constructor
  · intro hval
    have hne := validTier_ne_nil _ hval
    obtain ⟨r, hr, hrid, hrval, hrsens, hrupd, hrcat⟩ :=
      getField_setField v.db
        ⟨id, idCat id, idNamePart id,
         encryptB64 (MKey.subkey key v.salt (idCat id)) value,
         (if s = [] then ("standard".toList) else s), now, 1⟩ hne
    refine ⟨_, r, set_ok_eq v key hreq now id value s hid hval, ?_, hrsens, hne⟩
    rw [getField_logAccess]
    exact hr
  · intro hs hbad
    refine set_err_tier_eq v key hreq now id value s hid ?_
    rw [if_neg hs]
    exact hbad

/-- Witness for C8: empty tier persists as standard and the unknown
tier extreme is refused, at the concrete unlocked vault. -/
theorem set_tier_normalization_witness :
    validFieldID ("identity.full_name".toList) = true ∧
    (∃ v1 r, vOpen.set 7 ("identity.full_name".toList) ("Cool Cucumber".toList) []
        = (.ok (), v1) ∧
      v1.db.getField ("identity.full_name".toList) = some r ∧
      r.sensitivity = (if ([] : Str) = [] then ("standard".toList) else []) ∧
      (if ([] : Str) = [] then ("standard".toList) else ([] : Str)) ≠ []) ∧
    vOpen.set 7 ("identity.full_name".toList) ("Cool Cucumber".toList)
        ("extreme".toList) = (.error .invalidTier, vOpen) := by
  have h := set_tier_normalization vOpen 7 ("identity.full_name".toList)
    ("Cool Cucumber".toList) [] ("tok".toList) masterKey0 (by decide) rfl
  have h2 := set_tier_normalization vOpen 7 ("identity.full_name".toList)
    ("Cool Cucumber".toList) ("extreme".toList) ("tok".toList) masterKey0
    (by decide) rfl
  exact ⟨by decide, h.1 (by decide), h2.2 (by decide) (by decide)⟩

/-- Claim C1: on an unlocked vault, Set of a valid identifier with an
admissible tier followed by Get succeeds and returns the written value,
the category in front of the first dot, and the normalized tier. -/
theorem set_get_roundtrip (v : VaultState) (now : Nat) (id value t : Str)
    (tok : Str) (key : MKey)
    (hid : validFieldID id = true)
    (ht : t = [] ∨ validTier t = true)
    (hsess : v.session = some ⟨tok, some key⟩)
    (hcat : ∀ g ∈ v.db.fields, g.id = id → g.category = idCat id) :
    ∃ v1 fi v2, v.set now id value t = (.ok (), v1) ∧
      v1.get id = (.ok (some fi), v2) ∧
      fi.value = value ∧ fi.category = idCat id ∧
      fi.sensitivity = (if t = [] then ("standard".toList) else t) := by
  have hreq := requireUnlocked_some v tok key hsess
  have hval : validTier (if t = [] then ("standard".toList) else t) = true := by
    by_cases hte : t = []
    · rw [if_pos hte]; decide
    · rw [if_neg hte]
      rcases ht with h | h
      · exact absurd h hte
      · exact h
  have hne := validTier_ne_nil _ hval
  obtain ⟨r, hr, hrid, hrval, hrsens, hrupd, hrcat⟩ :=
    getField_setField v.db
      ⟨id, idCat id, idNamePart id,
       encryptB64 (MKey.subkey key v.salt (idCat id)) value,
       (if t = [] then ("standard".toList) else t), now, 1⟩ hne
  have hrc : r.category = idCat id := by
    rcases hrcat with h | ⟨g, hgmem, hgid, hgc⟩
    · exact h
    · rw [hgc]; exact hcat g hgmem hgid
  have hset := set_ok_eq v key hreq now id value t hid hval
  set v1 : VaultState :=
    { v with db := ((v.db.setField
        ⟨id, idCat id, idNamePart id,
         encryptB64 (MKey.subkey key v.salt (idCat id)) value,
         (if t = [] then ("standard".toList) else t), now, 1⟩).logAccess
          ⟨("vault".toList), id, ("write".toList), []⟩) } with hv1
  have hreq1 : v1.requireUnlocked = some key := by
    rw [VaultState.requireUnlocked]
    show (match v.session with
      | none => none
      | some s => s.vaultKey) = some key
    rw [hsess]
  have hgf : v1.db.getField id = some r := by
    rw [hv1]
    show ((v.db.setField _).logAccess _).getField id = some r
    rw [getField_logAccess]
    exact hr
  have hdec : decryptB64 (MKey.subkey key v1.salt r.category) r.value
      = some value := by
    rw [hrval, hrc]
    show decryptB64 (MKey.subkey key v.salt (idCat id))
      (encryptB64 (MKey.subkey key v.salt (idCat id)) value) = some value
    simp [decryptB64, encryptB64]
  have hget := get_ok_eq v1 key hreq1 id r value hgf hdec
  refine ⟨v1, toInfo r value, _, hset, hget, rfl, hrc, ?_⟩
  show r.sensitivity = _
  rw [hrsens]

/-- Witness for C1: write and read back identity.full_name with the
empty tier on the concrete unlocked vault. -/
theorem set_get_roundtrip_witness :
    ∃ v1 fi v2,
      vOpen.set 7 ("identity.full_name".toList) ("Cool Cucumber".toList) []
        = (.ok (), v1) ∧
      v1.get ("identity.full_name".toList) = (.ok (some fi), v2) ∧
      fi.value = ("Cool Cucumber".toList) ∧
      fi.category = idCat ("identity.full_name".toList) ∧
      fi.sensitivity = (if ([] : Str) = [] then ("standard".toList) else []) := by
  exact set_get_roundtrip vOpen 7 ("identity.full_name".toList)
    ("Cool Cucumber".toList) [] ("tok".toList) masterKey0 (by decide)
    (Or.inl rfl) rfl (by intro g hg; simp [vOpen, dbInit] at hg)

/-- Claim C2: on an initialized, locked vault, Unlock with a decodable
secret key fails with wrong_password and changes nothing — the vault
stays locked and no audit entry is appended — whenever the hash of the
decoded key differs from the stored hash, the stored verification
envelope does not open under the derived master key, or the recovered
plaintext differs from the fixed constant. -/
theorem unlock_wrong_credentials (v : VaultState)
    (password skHex freshTok : Str) (salt sk : List Nat)
    (hlocked : v.session = none)
    (hsalt : v.db.getMeta ("salt".toList) = some (.bytes salt))
    (hsk : hexDecode (trimStr skHex) = some sk)
    (hbad :
      v.db.getMeta ("secret_key_hash".toList) ≠ some (.hash (hashSecretKey sk))
      ∨ decryptVerification v (MKey.master password sk salt) = none
      ∨ ∃ pt, decryptVerification v (MKey.master password sk salt) = some pt
          ∧ pt ≠ verificationConst) :
    v.unlock password skHex freshTok = (.error .wrongPassword, v)
    ∧ (v.unlock password skHex freshTok).snd.session = none
    ∧ (v.unlock password skHex freshTok).snd.db.audit = v.db.audit := by
  have hinit : v.db.isInitialized = true := by
    rw [DBState.isInitialized, hsalt]; rfl
  have hmain : v.unlock password skHex freshTok = (.error .wrongPassword, v) := by
    unfold VaultState.unlock
    rw [if_neg (by simp [hlocked]), if_neg (by simp [hinit])]
    simp only [hsalt, hsk]
    by_cases h1 : v.db.getMeta ("secret_key_hash".toList)
        = some (.hash (hashSecretKey sk))
    · rw [if_neg (not_not_intro h1)]
      rcases hbad with hb | hb | hb
      · exact absurd h1 hb
      · cases hver : v.db.getMeta ("verification".toList) with
        | none => simp only [hver]
        | some mv =>
          cases mv with
          | str s2 => simp only [hver]
          | bytes b2 => simp only [hver]
          | hash h2 => simp only [hver]
          | cipher c =>
            have hb2 : decryptB64 (MKey.master password sk salt) c = none := by
              have h3 := hb
              unfold decryptVerification at h3
              rw [hver] at h3
              exact h3
            simp only [hver, hb2]
      · obtain ⟨pt, hpt, hne⟩ := hb
        cases hver : v.db.getMeta ("verification".toList) with
        | none =>
          have h3 : (none : Option Str) = some pt := by
            have h4 := hpt
            unfold decryptVerification at h4
            rw [hver] at h4
            exact h4
          exact absurd h3 (by simp)
        | some mv =>
          cases mv with
          | str s2 =>
            have h3 : (none : Option Str) = some pt := by
              have h4 := hpt
              unfold decryptVerification at h4
              rw [hver] at h4
              exact h4
            exact absurd h3 (by simp)
          | bytes b2 =>
            have h3 : (none : Option Str) = some pt := by
              have h4 := hpt
              unfold decryptVerification at h4
              rw [hver] at h4
              exact h4
            exact absurd h3 (by simp)
          | hash h2 =>
            have h3 : (none : Option Str) = some pt := by
              have h4 := hpt
              unfold decryptVerification at h4
              rw [hver] at h4
              exact h4
            exact absurd h3 (by simp)
          | cipher c =>
            have hp2 : decryptB64 (MKey.master password sk salt) c = some pt := by
              have h4 := hpt
              unfold decryptVerification at h4
              rw [hver] at h4
              exact h4
            have hne2 : ¬ (pt = verificationConst) := hne
            simp only [hver, hp2]
            rw [if_pos hne2]
    · rw [if_pos h1]
  exact ⟨hmain, by rw [hmain]; exact hlocked, by rw [hmain]⟩

/-- Witness for C2: the wrong secret key 00 against the concrete
initialized, locked vault. -/
theorem unlock_wrong_credentials_witness :
    vLocked.session = none ∧
    hexDecode (trimStr ("00".toList)) = some [0] ∧
    vLocked.unlock pw0 ("00".toList) ("tok2".toList)
      = (.error .wrongPassword, vLocked) := by
  refine ⟨rfl, by decide, ?_⟩
  exact (unlock_wrong_credentials vLocked pw0 ("00".toList) ("tok2".toList)
    saltBytes [0] rfl (by decide) (by decide) (Or.inl (by decide))).1

/-- Claim C3: destroying a session or firing its idle auto-lock
zero-fills the key buffer while the token is still in place, then
clears the token; afterwards the key accessor returns nil, no token
validates (the empty string included), and every privileged vault
operation fails with locked, and keeps the vault sessionless, until a
new unlock. -/
theorem lock_zeroizes_and_locks (s : BSession) (hs : s.keyRef = true)
    (v : VaultState) (hv : v.session = none)
    (now ttl : Nat) (id value tier category consumer scope raw t2 : Str)
    (hid : validFieldID id = true) :
    ((s.zeroKey).keyBuf = List.replicate s.keyBuf.length 0
      ∧ (s.zeroKey).token = s.token
      ∧ s.destroy = { s.zeroKey with token := [], timerOn := false }
      ∧ s.autoLock = { s.zeroKey with token := [], timerOn := false })
    ∧ (s.destroy.keyBuf = List.replicate s.keyBuf.length 0
      ∧ s.destroy.vaultKey = none
      ∧ s.destroy.validateToken t2 = false
      ∧ s.destroy.validateToken [] = false)
    ∧ (s.autoLock.keyBuf = List.replicate s.keyBuf.length 0
      ∧ s.autoLock.vaultKey = none
      ∧ s.autoLock.validateToken t2 = false)
    ∧ (∀ w : VaultState, (w.lock).session = none ∧ (w.autoLockFire).session = none)
    ∧ (v.set now id value tier = (.error .locked, v)
      ∧ v.get id = (.error .locked, v)
      ∧ v.listAll = (.error .locked, v)
      ∧ v.listByCategory category = (.error .locked, v)
      ∧ v.getByCategory category = (.error .locked, v)
      ∧ v.getContext = (.error .locked, v)
      ∧ v.delete id = (.error .locked, v)
      ∧ v.setSensitivity now id tier = (.error .locked, v)
      ∧ v.createServiceToken now consumer scope ttl raw = (.error .locked, v)
      ∧ v.listServiceTokens = (.error .locked, v)
      ∧ v.revokeServiceToken raw = (.error .locked, v)
      ∧ v.validateToken t2 = false) := by
  have hzero : s.zeroKey =
      { s with keyBuf := List.replicate s.keyBuf.length 0, keyRef := false } := by
    rw [BSession.zeroKey, if_pos hs]
  have hreqnone : v.requireUnlocked = none := by
    rw [VaultState.requireUnlocked, hv]
  refine ⟨⟨by rw [hzero], by rw [hzero], rfl, rfl⟩, ?_, ?_, ?_, ?_⟩
  · refine ⟨by simp [BSession.destroy, hzero], ?_, ?_, ?_⟩
    · simp [BSession.destroy, BSession.vaultKey, hzero]
    · simp [BSession.destroy, BSession.validateToken]
    · simp [BSession.destroy, BSession.validateToken]
  · refine ⟨by simp [BSession.autoLock, hzero], ?_, ?_⟩
    · simp [BSession.autoLock, BSession.vaultKey, hzero]
    · simp [BSession.autoLock, BSession.validateToken]
  · intro w
    constructor
    · cases hw : w.session <;> simp [VaultState.lock, hw]
    · rfl
  · refine ⟨?_, ?_, ?_, ?_, ?_, ?_, ?_, ?_, ?_, ?_, ?_, ?_⟩
    · unfold VaultState.set
      rw [if_neg (not_not_intro hid)]
      simp only [hreqnone]
    · unfold VaultState.get
      simp only [hreqnone]
    · unfold VaultState.listAll
      simp only [hreqnone]
    · unfold VaultState.listByCategory
      simp only [hreqnone]
    · unfold VaultState.getByCategory
      simp only [hreqnone]
    · unfold VaultState.getContext
      simp only [hreqnone]
    · unfold VaultState.delete
      simp only [hreqnone]
    · unfold VaultState.setSensitivity
      simp only [hreqnone]
    · unfold VaultState.createServiceToken
      simp only [hreqnone]
    · unfold VaultState.listServiceTokens
      simp only [hreqnone]
    · unfold VaultState.revokeServiceToken
      simp only [hreqnone]
    · rw [VaultState.validateToken, hv]

/-- Witness for C3: the concrete live session and the concrete locked
vault. -/
theorem lock_zeroizes_and_locks_witness :
    (bsess0.destroy.keyBuf = List.replicate bsess0.keyBuf.length 0
      ∧ bsess0.destroy.vaultKey = none
      ∧ bsess0.destroy.validateToken ("tok".toList) = false)
    ∧ vLocked.get ("identity.full_name".toList) = (.error .locked, vLocked) := by
  obtain ⟨h1, h2, h3, h4, h5⟩ :=
    lock_zeroizes_and_locks bsess0 rfl vLocked rfl 0 0
      ("identity.full_name".toList) ("x".toList) [] ("identity".toList)
      ("life".toList) ("*".toList) ("abc".toList) ("tok".toList) (by decide)
  exact ⟨⟨h2.1, h2.2.1, h2.2.2.1⟩, h5.2.1⟩

theorem handleVaultError_ne (e : VErr) : handleVaultError e ≠ sessionRequiredErr := by
  cases e <;> decide

theorem except_error_ne {α : Type} (e1 e2 : ApiErr) (h : e1 ≠ e2) :
    (Except.error e1 : Except ApiErr α) ≠ .error e2 := by
  intro hc
  injection hc with h2
  exact h h2

/-- Claim C5: the lock, audit and all three service-token routes deny
service-class requests with 403 session_required and leave the state
untouched, whatever the scope; session-class requests never see
session_required on these routes. -/
theorem privileged_routes_require_session (v : VaultState) (r : Req)
    (limReq : Option Nat) (now : Nat) (body : Option CreateTokenBody)
    (rawToken tokenPath : Str) :
    (r.isSession = false →
      handleLock v r = (.error sessionRequiredErr, v)
      ∧ handleAuditLog v r limReq = (.error sessionRequiredErr, v)
      ∧ handleCreateServiceToken v r now body rawToken
          = (.error sessionRequiredErr, v)
      ∧ handleListServiceTokens v r = (.error sessionRequiredErr, v)
      ∧ handleRevokeServiceToken v r tokenPath = (.error sessionRequiredErr, v))
    ∧ (r.isSession = true →
      (handleLock v r).fst ≠ .error sessionRequiredErr
      ∧ (handleAuditLog v r limReq).fst ≠ .error sessionRequiredErr
      ∧ (handleCreateServiceToken v r now body rawToken).fst
          ≠ .error sessionRequiredErr
      ∧ (handleListServiceTokens v r).fst ≠ .error sessionRequiredErr
      ∧ (handleRevokeServiceToken v r tokenPath).fst
          ≠ .error sessionRequiredErr) := by
  constructor
  · intro hserv
    have hng : ¬ r.isSession = true := by simp [hserv]
    refine ⟨?_, ?_, ?_, ?_, ?_⟩
    · unfold handleLock
      rw [if_pos hng]
    · unfold handleAuditLog
      rw [if_pos hng]
    · unfold handleCreateServiceToken
      rw [if_pos hng]
    · unfold handleListServiceTokens
      rw [if_pos hng]
    · unfold handleRevokeServiceToken
      rw [if_pos hng]
  · intro hses
    have hok : ¬ ¬ r.isSession = true := not_not_intro hses
    refine ⟨?_, ?_, ?_, ?_, ?_⟩
    · unfold handleLock
      rw [if_neg hok]
      exact fun h => Except.noConfusion h
    · unfold handleAuditLog
      rw [if_neg hok]
      exact fun h => Except.noConfusion h
    · unfold handleCreateServiceToken
      rw [if_neg hok]
      cases body with
      | none => exact except_error_ne _ _ (by decide)
      | some b =>
        dsimp only
        by_cases hc : b.consumer = []
        · rw [if_pos hc]
          exact except_error_ne _ _ (by decide)
        · rw [if_neg hc]
          cases b.ttl with
          | bad => exact except_error_ne _ _ (by decide)
          | absent =>
            rcases hcore : v.createServiceToken now b.consumer
                (if b.scope = [] then ("*".toList) else b.scope)
                defaultTokenTTL rawToken with ⟨res, v1⟩
            cases res with
            | error e => exact except_error_ne _ _ (handleVaultError_ne e)
            | ok tokr => exact fun h => Except.noConfusion h
          | dur ttl =>
            dsimp only
            rcases hcore : v.createServiceToken now b.consumer
                (if b.scope = [] then ("*".toList) else b.scope) ttl rawToken
              with ⟨res, v1⟩
            cases res with
            | error e => exact except_error_ne _ _ (handleVaultError_ne e)
            | ok tokr => exact fun h => Except.noConfusion h
    · unfold handleListServiceTokens
      rw [if_neg hok]
      rcases hcore : v.listServiceTokens with ⟨res, v1⟩
      cases res with
      | error e => exact except_error_ne _ _ (handleVaultError_ne e)
      | ok toks => exact fun h => Except.noConfusion h
    · unfold handleRevokeServiceToken
      rw [if_neg hok]
      by_cases hp : tokenPath = []
      · rw [if_pos hp]
        exact except_error_ne _ _ (by decide)
      · rw [if_neg hp]
        rcases hcore : v.revokeServiceToken tokenPath with ⟨res, v1⟩
        cases res with
        | error e => exact except_error_ne _ _ (handleVaultError_ne e)
        | ok n =>
          dsimp only
          by_cases hn : n = 0
          · rw [if_pos hn]
            exact except_error_ne _ _ (by decide)
          · rw [if_neg hn]
            exact fun h => Except.noConfusion h

/-- Witness for C5: a service-class request against the concrete
unlocked vault is denied on lock and audit without a state change. -/
theorem privileged_routes_require_session_witness :
    handleLock vOpen ⟨false, ("identity.*".toList)⟩
      = (.error sessionRequiredErr, vOpen)
    ∧ handleAuditLog vOpen ⟨false, ("identity.*".toList)⟩ none
      = (.error sessionRequiredErr, vOpen)
    ∧ handleRevokeServiceToken vOpen ⟨false, ("identity.*".toList)⟩ ("abc".toList)
      = (.error sessionRequiredErr, vOpen) := by
  have h := (privileged_routes_require_session vOpen ⟨false, ("identity.*".toList)⟩
    none 0 none [] ("abc".toList)).1 rfl
  exact ⟨h.1, h.2.1, h.2.2.2.2⟩

theorem hashServiceToken_inj (a b : Str)
    (h : hashServiceToken a = hashServiceToken b) : a = b := by
  unfold hashServiceToken at h
  exact List.append_cancel_left h

theorem hashServiceToken_no_fix (raw : Str) : hashServiceToken raw ≠ raw := by
  intro h
  have h2 := congrArg List.length h
  simp [hashServiceToken] at h2
  omega

/-- Claim C10: revocation hashes the supplied value before the store
lookup, so with one stored service token whose column holds the hash of
raw, the endpoint deletes the row exactly for the byte-identical raw
value; the stored hash itself never equals raw, and a proper prefix of
raw hashes to a different key, so those inputs delete nothing and yield
404 not_found with the state unchanged. -/
theorem revoke_requires_exact_raw (v : VaultState) (r : Req)
    (raw supplied : Str) (t : Token) (tok : Str) (key : MKey)
    (hsr : r.isSession = true)
    (hsess : v.session = some ⟨tok, some key⟩)
    (htokens : v.db.tokens = [t])
    (htok : t.tokenStr = hashServiceToken raw)
    (hsupne : supplied ≠ []) :
    (supplied = raw →
       handleRevokeServiceToken v r supplied =
         (.ok 1, { v with db := (({ v.db with tokens := [] }).logAccess
            ⟨("vault".toList), ("*".toList),
             ("revoke_service_token".toList), []⟩) }))
    ∧ (supplied ≠ raw →
       handleRevokeServiceToken v r supplied
         = (.error ⟨404, ("not_found".toList)⟩, v))
    ∧ hashServiceToken raw ≠ raw
    ∧ (∀ p2 : Str, p2 <+: raw → p2 ≠ raw →
        hashServiceToken p2 ≠ hashServiceToken raw) := by
  have hreq := requireUnlocked_some v tok key hsess
  have hok : ¬ ¬ r.isSession = true := not_not_intro hsr
  refine ⟨?_, ?_, hashServiceToken_no_fix raw, ?_⟩
  · rintro rfl
    have hdel : v.db.deleteToken (hashServiceToken supplied)
        = (1, { v.db with tokens := [] }) := by
      unfold DBState.deleteToken
      rw [htokens]
      simp [htok]
    have hcore : v.revokeServiceToken supplied =
        (.ok 1, { v with db := (({ v.db with tokens := [] }).logAccess
          ⟨("vault".toList), ("*".toList),
           ("revoke_service_token".toList), []⟩) }) := by
      unfold VaultState.revokeServiceToken
      split
      · next heq => rw [hreq] at heq; exact absurd heq (by simp)
      · next key2 heq =>
        rw [hreq] at heq
        injection heq with h2
        subst h2
        dsimp only
        rw [hdel]
        rw [if_pos (by decide : (0 : Nat) < 1)]
    unfold handleRevokeServiceToken
    rw [if_neg hok, if_neg hsupne, hcore]
    rfl
  · intro hner
    have hts : t.tokenStr ≠ hashServiceToken supplied := by
      rw [htok]
      intro h2
      exact hner (hashServiceToken_inj _ _ h2).symm
    have hdel : v.db.deleteToken (hashServiceToken supplied) = (0, v.db) := by
      unfold DBState.deleteToken
      rw [htokens]
      simp only [List.filter_cons, List.filter_nil]
      rw [if_neg (by simp [hts]), if_pos (by simp [hts])]
      show ((0 : Nat), ({ v.db with tokens := [t] } : DBState)) = (0, v.db)
      rw [← htokens]
    have hcore : v.revokeServiceToken supplied = (.ok 0, v) := by
      unfold VaultState.revokeServiceToken
      split
      · next heq => rw [hreq] at heq; exact absurd heq (by simp)
      · next key2 heq =>
        rw [hreq] at heq
        injection heq with h2
        subst h2
        dsimp only
        rw [hdel]
        rw [if_neg (by decide : ¬ (0 : Nat) < 0)]
    unfold handleRevokeServiceToken
    rw [if_neg hok, if_neg hsupne, hcore]
    rfl
  · intro p2 hpre hne2 hcontra
    exact hne2 (hashServiceToken_inj _ _ hcontra)

/-- Witness for C10: supplying the stored hash of the concrete token
deletes nothing and yields 404; supplying the raw token deletes the
row. -/
theorem revoke_requires_exact_raw_witness :
    handleRevokeServiceToken vTok ⟨true, ("*".toList)⟩ (hashServiceToken rawTok0)
      = (.error ⟨404, ("not_found".toList)⟩, vTok)
    ∧ handleRevokeServiceToken vTok ⟨true, ("*".toList)⟩ rawTok0
      = (.ok 1, { vTok with db := (({ vTok.db with tokens := [] }).logAccess
          ⟨("vault".toList), ("*".toList),
           ("revoke_service_token".toList), []⟩) }) := by
  have h := revoke_requires_exact_raw vTok ⟨true, ("*".toList)⟩ rawTok0
    (hashServiceToken rawTok0) svcTok0 ("tok".toList) masterKey0
    rfl rfl rfl rfl (by decide)
  have h2 := revoke_requires_exact_raw vTok ⟨true, ("*".toList)⟩ rawTok0
    rawTok0 svcTok0 ("tok".toList) masterKey0
    rfl rfl rfl rfl (by decide)
  exact ⟨h.2.1 (by decide), h2.1 rfl⟩

/-! Helper lemmas for the category handler and clean exact patterns. -/

theorem decryptWith_all (k : MKey) (l : List Field)
    (h : ∀ f ∈ l, f.value.key = k) :
    decryptWith k l = some (l.map (fun f => toInfo f f.value.plaintext)) := by
  induction l with
  | nil => rfl
  | cons f rest ih =>
    unfold decryptWith
    rw [show decryptB64 k f.value = some f.value.plaintext from by
      rw [decryptB64, if_pos (h f (by simp))]]
    rw [ih (fun g hg => h g (by simp [hg]))]
    rfl

theorem handler_filter_eq (sc : Str) (l : List Field) (p : Field → Bool) :
    (((l.filter p).map (fun f => toInfo f f.value.plaintext)).filter
        (fun fi => scopeAllows sc fi.id))
      = (l.filter (fun f => p f && scopeAllows sc f.id)).map
          (fun f => toInfo f f.value.plaintext) := by
  induction l with
  | nil => rfl
  | cons f rest ih =>
    rw [List.filter_cons, List.filter_cons]
    by_cases hp : p f = true
    · rw [if_pos (by simp [hp]), List.map_cons, List.filter_cons]
      by_cases hs : scopeAllows sc f.id = true
      · rw [if_pos (by simp [toInfo, hs]), if_pos (by simp [hp, hs]),
          List.map_cons, ih]
      · rw [if_neg (by simp [toInfo, hs]), if_neg (by simp [hp, hs]), ih]
    · rw [if_neg (by simp [hp]), if_neg (by simp [hp]), ih]

theorem getByCategory_ok_eq (v : VaultState) (key : MKey)
    (hreq : v.requireUnlocked = some key) (category : Str)
    (hkeys : ∀ f ∈ v.db.fields, f.category = category →
        f.value.key = MKey.subkey key v.salt category) :
    v.getByCategory category =
      (.ok ((v.db.fields.filter (fun f => f.category = category)).map
          (fun f => toInfo f f.value.plaintext)),
       { v with db := (v.db.logAccess
           ⟨("vault".toList), category ++ (".*".toList), ("read".toList), []⟩) }) := by
  have hall : ∀ f ∈ v.db.getFieldsByCategory category,
      f.value.key = MKey.subkey key v.salt category := by
    intro f hf
    rw [DBState.getFieldsByCategory] at hf
    have h2 := List.mem_filter.mp hf
    exact hkeys f h2.1 (by simpa using h2.2)
  have hdw := decryptWith_all (MKey.subkey key v.salt category)
    (v.db.getFieldsByCategory category) hall
  unfold VaultState.getByCategory
  split
  · next heq => rw [hreq] at heq; exact absurd heq (by simp)
  · next key2 heq =>
    rw [hreq] at heq
    injection heq with h2
    subst h2
    rw [hdw]
    rfl

theorem splitComma_no_comma :
    ∀ (s acc : Str), (∀ a ∈ s, a ≠ ',') → splitComma s acc = [acc.reverse ++ s]
  | [], acc, _ => by simp [splitComma]
  | c :: cs, acc, h => by
    have hc : c ≠ ',' := h c (by simp)
    rw [splitComma, if_neg hc,
      splitComma_no_comma cs (c :: acc) (fun a ha => h a (by simp [ha]))]
    simp

theorem dropWhile_ws_id (s : Str) (h : ∀ a ∈ s, a.isWhitespace = false) :
    s.dropWhile Char.isWhitespace = s := by
  cases s with
  | nil => rfl
  | cons a l => rw [List.dropWhile_cons, if_neg (by simp [h a (by simp)])]

theorem trimStr_id (s : Str) (h : ∀ a ∈ s, a.isWhitespace = false) :
    trimStr s = s := by
  unfold trimStr
  rw [dropWhile_ws_id s h,
    dropWhile_ws_id s.reverse (fun a ha => h a (List.mem_reverse.mp ha)),
    List.reverse_reverse]

/-- Claim C9: the category handler returns exactly the stored fields of
the requested category whose full identifier passes the per-field scope
check; and a scope that is one clean exact pattern category.name passes
the category gate while any identifier it lets through is that single
identifier. -/
theorem get_by_category_scope_filter :
    (∀ (v : VaultState) (r : Req) (category tok : Str) (key : MKey),
      v.session = some ⟨tok, some key⟩ →
      (∀ f ∈ v.db.fields, f.category = category →
          f.value.key = MKey.subkey key v.salt category) →
      validCategoryName category = true →
      scopeAllowsCategory r.scope category = true →
      handleGetByCategory v r category =
        (.ok ((v.db.fields.filter (fun f =>
            decide (f.category = category) && scopeAllows r.scope f.id)).map
              (fun f => toInfo f f.value.plaintext)),
         { v with db := (v.db.logAccess
             ⟨("vault".toList), category ++ (".*".toList), ("read".toList), []⟩) }))
    ∧ (∀ (catp namep id : Str),
        catp ≠ [] → namep ≠ [] →
        (∀ a ∈ catp, validChar a = true) → (∀ a ∈ namep, validChar a = true) →
        scopeAllowsCategory (catp ++ '.' :: namep) catp = true
        ∧ (validFieldID id = true →
           scopeAllows (catp ++ '.' :: namep) id = true →
           id = catp ++ '.' :: namep)) := by
  constructor
  · intro v r category tok key hsess hkeys hvc hsc
    have hreq := requireUnlocked_some v tok key hsess
    unfold handleGetByCategory
    rw [if_neg (not_not_intro hvc), if_neg (not_not_intro hsc),
      getByCategory_ok_eq v key hreq category hkeys]
    show (Except.ok (((v.db.fields.filter (fun f => f.category = category)).map
        (fun f => toInfo f f.value.plaintext)).filter
          (fun fi => scopeAllows r.scope fi.id)), _)
      = (_, _)
    rw [handler_filter_eq]
  · intro catp namep id hc hn hcall hnall
    have hmem : ∀ a ∈ catp ++ '.' :: namep, a = '.' ∨ validChar a = true := by
      intro a ha
      rcases List.mem_append.mp ha with h2 | h2
      · exact Or.inr (hcall a h2)
      · rcases List.mem_cons.mp h2 with rfl | h3
        · exact Or.inl rfl
        · exact Or.inr (hnall a h3)
    have hnc : ∀ a ∈ catp ++ '.' :: namep, a ≠ ',' := by
      intro a ha
      rcases hmem a ha with rfl | h2
      · decide
      · exact (validChar_not_special a h2).2.1
    have hnw : ∀ a ∈ catp ++ '.' :: namep, a.isWhitespace = false := by
      intro a ha
      rcases hmem a ha with rfl | h2
      · decide
      · exact (validChar_not_special a h2).2.2.2
    have hsplit : splitComma (catp ++ '.' :: namep) [] = [catp ++ '.' :: namep] := by
      rw [splitComma_no_comma _ _ hnc]
      simp
    have htrim : trimStr (catp ++ '.' :: namep) = catp ++ '.' :: namep :=
      trimStr_id _ hnw
    have hstar : ¬ (catp ++ '.' :: namep = ("*".toList)) := by
      intro h2
      have h3 := congrArg List.length h2
      have h4 : 0 < catp.length := List.length_pos.mpr hc
      simp at h3
      omega
    have hends : endsWithStr (catp ++ '.' :: namep) ['.', '*'] = false := by
      by_contra h2
      rw [Bool.not_eq_false] at h2
      have hsuf := (endsWithStr_iff _ _).mp h2
      have hstarmem : '*' ∈ catp ++ '.' :: namep := hsuf.mem (by decide)
      rcases hmem _ hstarmem with h3 | h3
      · exact absurd h3 (by decide)
      · exact absurd rfl (validChar_not_special _ h3).2.2.1
    have happ : catp ++ '.' :: namep = (catp ++ ['.']) ++ namep := by simp
    constructor
    · rw [scopeAllowsCategory, hsplit]
      simp only [List.any_cons, List.any_nil, Bool.or_false, htrim]
      rw [patternAllowsCategory, if_neg hstar, if_neg (by simp [hends])]
      rw [happ]
      exact (startsWithStr_iff _ _).mpr (List.prefix_append _ _)
    · intro hid hallow
      rw [scopeAllows, hsplit] at hallow
      simp only [List.any_cons, List.any_nil, Bool.or_false, htrim] at hallow
      rw [patternAllows, if_neg hstar, if_neg (by simp [hends])] at hallow
      simpa [eq_comm] using hallow

/-- Witness for C9: with two stored identity fields, the exact scope
identity.dob passes the category gate but receives only identity.dob. -/
theorem get_by_category_scope_filter_witness :
    handleGetByCategory vFields ⟨false, ("identity.dob".toList)⟩ ("identity".toList)
      = (.ok ((vFields.db.fields.filter (fun f =>
          decide (f.category = ("identity".toList)) &&
          scopeAllows ("identity.dob".toList) f.id)).map
            (fun f => toInfo f f.value.plaintext)),
         { vFields with db := (vFields.db.logAccess
             ⟨("vault".toList), ("identity".toList) ++ (".*".toList),
              ("read".toList), []⟩) })
    ∧ (vFields.db.fields.filter (fun f =>
          decide (f.category = ("identity".toList)) &&
          scopeAllows ("identity.dob".toList) f.id)).map
            (fun f => toInfo f f.value.plaintext)
        = [toInfo fIdentityDob ("1990-01-01".toList)] := by
  refine ⟨?_, by decide⟩
  exact (get_by_category_scope_filter).1 vFields ⟨false, ("identity.dob".toList)⟩
    ("identity".toList) ("tok".toList) masterKey0 rfl (by decide) (by decide)
    (by decide)

/-! Audit bookkeeping lemmas: which store operations touch the audit
table. -/

theorem setField_audit (d : DBState) (f : Field) : (d.setField f).audit = d.audit := by
  unfold DBState.setField
  split <;> rfl

theorem deleteField_audit (d : DBState) (id : Str) :
    (d.deleteField id).audit = d.audit := rfl

theorem setSensitivityDB_audit (d : DBState) (id tier : Str) (now : Nat) :
    (d.setSensitivity id tier now).audit = d.audit := rfl

theorem createToken_audit (d : DBState) (t : Token) :
    (d.createToken t).audit = d.audit := rfl

theorem deleteToken_audit (d : DBState) (tok : Str) :
    ((d.deleteToken tok).snd).audit = d.audit := rfl

/-- Counterexample to C6 as stated: a successful sensitivity update on
the concrete unlocked vault appends no audit entry at all. -/
theorem audit_setSensitivity_counterexample :
    (vFields.setSensitivity 9 ("identity.full_name".toList)
        ("critical".toList)).fst = .ok ()
    ∧ ((vFields.setSensitivity 9 ("identity.full_name".toList)
        ("critical".toList)).snd).db.audit = vFields.db.audit :=
  ⟨rfl, rfl⟩

/-- Claim C6 amended: field set, field get (when a field is returned),
get-by-category, full context, field delete, unlock, lock (when a
session exists), service-token create, and service-token revoke (when
at least one row was deleted) each append exactly one audit entry on
success; the sensitivity update appends none. -/
theorem audit_on_success :
    (∀ (v : VaultState) (now : Nat) (id value s : Str) (v1 : VaultState),
       v.set now id value s = (.ok (), v1) →
       v1.db.audit = v.db.audit
         ++ [⟨("vault".toList), id, ("write".toList), []⟩])
    ∧ (∀ (v : VaultState) (id : Str) (fi : FieldInfo) (v1 : VaultState),
       v.get id = (.ok (some fi), v1) →
       v1.db.audit = v.db.audit
         ++ [⟨("vault".toList), id, ("read".toList), []⟩])
    ∧ (∀ (v : VaultState) (category : Str) (l : List FieldInfo) (v1 : VaultState),
       v.getByCategory category = (.ok l, v1) →
       v1.db.audit = v.db.audit
         ++ [⟨("vault".toList), category ++ (".*".toList), ("read".toList), []⟩])
    ∧ (∀ (v : VaultState) (l : List FieldInfo) (v1 : VaultState),
       v.getContext = (.ok l, v1) →
       v1.db.audit = v.db.audit
         ++ [⟨("vault".toList), ("*".toList), ("context".toList), []⟩])
    ∧ (∀ (v : VaultState) (id : Str) (v1 : VaultState),
       v.delete id = (.ok (), v1) →
       v1.db.audit = v.db.audit
         ++ [⟨("vault".toList), id, ("delete".toList), []⟩])
    ∧ (∀ (v : VaultState) (pw skx ftok tokr : Str) (v1 : VaultState),
       v.unlock pw skx ftok = (.ok tokr, v1) →
       v1.db.audit = v.db.audit
         ++ [⟨("vault".toList), ("*".toList), ("unlock".toList), []⟩])
    ∧ (∀ (v : VaultState) (s2 : VSession), v.session = some s2 →
       (v.lock).db.audit = v.db.audit
         ++ [⟨("vault".toList), ("*".toList), ("lock".toList), []⟩])
    ∧ (∀ (v : VaultState) (now ttl : Nat) (consumer scope raw tokr : Str)
         (v1 : VaultState),
       v.createServiceToken now consumer scope ttl raw = (.ok tokr, v1) →
       v1.db.audit = v.db.audit
         ++ [⟨("vault".toList), scope, ("create_service_token".toList),
             ("consumer: ".toList) ++ consumer⟩])
    ∧ (∀ (v : VaultState) (raw : Str) (n : Nat) (v1 : VaultState),
       v.revokeServiceToken raw = (.ok n, v1) → 0 < n →
       v1.db.audit = v.db.audit
         ++ [⟨("vault".toList), ("*".toList),
             ("revoke_service_token".toList), []⟩])
    ∧ (∀ (v : VaultState) (now : Nat) (id tier : Str) (v1 : VaultState),
       v.setSensitivity now id tier = (.ok (), v1) →
       v1.db.audit = v.db.audit) := by
  refine ⟨?_, ?_, ?_, ?_, ?_, ?_, ?_, ?_, ?_, ?_⟩
  · intro v now id value s v1 h
    unfold VaultState.set at h
    split at h
    · simp at h
    · split at h
      · simp at h
      · dsimp only at h
        split at h <;> split at h <;>
          first
          | (simp at h
             subst h
             simp [DBState.logAccess, setField_audit])
          | simp at h
  · intro v id fi v1 h
    unfold VaultState.get at h
    split at h
    · simp at h
    · split at h
      · simp at h
      · split at h
        · simp at h
        · rw [Prod.mk.injEq] at h
          obtain ⟨-, h2⟩ := h
          subst h2
          simp [DBState.logAccess]
  · intro v category l v1 h
    unfold VaultState.getByCategory at h
    split at h
    · simp at h
    · split at h
      · simp at h
      · rw [Prod.mk.injEq] at h
        obtain ⟨-, h2⟩ := h
        subst h2
        simp [DBState.logAccess]
  · intro v l v1 h
    unfold VaultState.getContext at h
    split at h
    · simp at h
    · split at h
      · simp at h
      · rw [Prod.mk.injEq] at h
        obtain ⟨-, h2⟩ := h
        subst h2
        simp [DBState.logAccess]
  · intro v id v1 h
    unfold VaultState.delete at h
    split at h
    · simp at h
    · rw [Prod.mk.injEq] at h
      obtain ⟨-, h2⟩ := h
      subst h2
      simp [DBState.logAccess, deleteField_audit]
  · intro v pw skx ftok tokr v1 h
    unfold VaultState.unlock at h
    dsimp only at h
    repeat' split at h
    all_goals
      first
      | (simp at h
         obtain ⟨h1, h2⟩ := h
         subst h2
         simp [DBState.logAccess])
      | simp at h
  · intro v s2 hs2
    unfold VaultState.lock
    split
    · simp [DBState.logAccess]
    · next heq => rw [hs2] at heq; simp at heq
  · intro v now ttl consumer scope raw tokr v1 h
    unfold VaultState.createServiceToken at h
    split at h
    · simp at h
    · dsimp only at h
      rw [Prod.mk.injEq] at h
      obtain ⟨-, h2⟩ := h
      subst h2
      simp [DBState.logAccess, createToken_audit]
  · intro v raw n v1 h hn
    unfold VaultState.revokeServiceToken at h
    split at h
    · simp at h
    · dsimp only at h
      split at h
      · rw [Prod.mk.injEq] at h
        obtain ⟨-, h2⟩ := h
        subst h2
        simp [DBState.logAccess, deleteToken_audit]
      · next hcond =>
        rw [Prod.mk.injEq] at h
        obtain ⟨h1, h2⟩ := h
        injection h1 with h1b
        subst h1b
        exact absurd hn hcond
  · intro v now id tier v1 h
    unfold VaultState.setSensitivity at h
    split at h
    · simp at h
    · split at h
      · simp at h
      · rw [Prod.mk.injEq] at h
        obtain ⟨-, h2⟩ := h
        subst h2
        simp [setSensitivityDB_audit]

/-- Witness for the amended C6: a concrete successful write appends the
write entry, and a concrete successful sensitivity update leaves the
audit log untouched. -/
theorem audit_on_success_witness :
    (vOpen.set 7 ("identity.full_name".toList)
        ("Cool Cucumber".toList) []).snd.db.audit
      = vOpen.db.audit
        ++ [⟨("vault".toList), ("identity.full_name".toList),
            ("write".toList), []⟩]
    ∧ (vFields.setSensitivity 9 ("identity.full_name".toList)
        ("critical".toList)).snd.db.audit = vFields.db.audit := by
  constructor
  · exact audit_on_success.1 vOpen 7 ("identity.full_name".toList)
      ("Cool Cucumber".toList) [] _ rfl
  · exact audit_on_success.2.2.2.2.2.2.2.2.2 vFields 9
      ("identity.full_name".toList) ("critical".toList) _ rfl

end PV
